import Mathlib

/-!
Verification of the streaming recipe reconstruction core of
`services/gemini_service.py` (functions `generate_recipe`,
`categorize_ingredients`) against its specification.

Python strings are modelled as `List Char` (`PyStr`), with the Python
string operations used by the source (`split`, `split(sep, 1)`, `strip`,
`lstrip(chars)`, `startswith`, `in`, `lower`, whitespace `split()`,
`int(...)`) re-implemented faithfully below.  The streamed Gemini
response is modelled as a finite list of fragments, each a text delta or
an inline image (the image payload is modelled as the base64 string the
source stores, so an empty payload models `b64encode(b"") == b""`).
-/

/-- Model of a Python `str`: a list of characters. -/
abbrev PyStr := List Char

/-- Convert a Lean string literal to the model type. -/
def pystr (s : String) : PyStr := s.data

/-- Python `str` whitespace (the ASCII characters stripped by `str.strip()`
and split on by `str.split()`). -/
def pyIsSpace (c : Char) : Bool :=
  c = ' ' || c = '\t' || c = '\n' || c = '\r' || c = '\x0b' || c = '\x0c'

/-- Python `s.strip()`: remove leading and trailing whitespace. -/
def pyStrip (s : PyStr) : PyStr :=
  ((s.dropWhile pyIsSpace).reverse.dropWhile pyIsSpace).reverse

/-- `pyStarts p s` is Python `s.startswith(p)`. -/
def pyStarts : PyStr → PyStr → Bool
  | [], _ => true
  | _ :: _, [] => false
  | p :: ps, c :: cs => p == c && pyStarts ps cs

/-- Locate the first occurrence of `sep` in `s`; on success return the text
before the occurrence and the text after it. -/
def splitFirst (sep : PyStr) : PyStr → Option (PyStr × PyStr)
  | [] => if pyStarts sep [] then some ([], []) else none
  | c :: rest =>
    if pyStarts sep (c :: rest) then some ([], (c :: rest).drop sep.length)
    else (splitFirst sep rest).map fun pr => (c :: pr.1, pr.2)

/-- Python `sub in s` (substring test; the empty string is in every string). -/
def pyIn (sub s : PyStr) : Bool :=
  sub.isEmpty || (splitFirst sub s).isSome

/-- Worker for `pySplit`, structurally recursive on a fuel argument that is
always supplied as more than the string length (each found separator
consumes at least one character, so the fuel never runs out). -/
def splitGo (sep : PyStr) : Nat → PyStr → List PyStr
  | 0, s => [s]
  | fuel + 1, s =>
    match splitFirst sep s with
    | none => [s]
    | some (pre, post) => pre :: splitGo sep fuel post

/-- Python `s.split(sep)` for a non-empty separator (the source only ever
splits on non-empty literals; an empty separator is a `ValueError` in
Python and is mapped to `[s]` here, unreachable from the embedding). -/
def pySplit (s sep : PyStr) : List PyStr :=
  if sep.isEmpty then [s] else splitGo sep (s.length + 1) s

/-- Python `s.split(sep, 1)`: at most one split. -/
def splitN1 (s sep : PyStr) : List PyStr :=
  match splitFirst sep s with
  | none => [s]
  | some (pre, post) => [pre, post]

/-- Worker for Python whitespace `s.split()`; `acc` is the current word,
reversed. -/
def splitWsAux : PyStr → PyStr → List PyStr
  | [], acc => if acc.isEmpty then [] else [acc.reverse]
  | c :: rest, acc =>
    if pyIsSpace c then
      if acc.isEmpty then splitWsAux rest [] else acc.reverse :: splitWsAux rest []
    else splitWsAux rest (c :: acc)

/-- Python `s.split()` with no separator: split on whitespace runs,
discarding empty pieces. -/
def pySplitWs (s : PyStr) : List PyStr := splitWsAux s []

/-- Python `s.lstrip(chars)` for `chars = "*- "`. -/
def pyLstripBullets (s : PyStr) : PyStr :=
  s.dropWhile fun c => c = '*' || c = '-' || c = ' '

/-- Python `s.isdigit()` restricted to ASCII digits (the only digits the
embedded texts contain): non-empty and all decimal digits. -/
def pyIsDigit (s : PyStr) : Bool :=
  !s.isEmpty && s.all Char.isDigit

/-- Numeric value of a string of decimal digits. -/
def digitsToNat (s : PyStr) : Nat :=
  s.foldl (fun acc c => acc * 10 + (c.toNat - '0'.toNat)) 0

/-- Python `int(s)` for decimal literals: optional surrounding whitespace,
optional sign, then a non-empty run of digits; anything else raises
(`none`).  (Python's underscore digit grouping is not modelled; no text
handled by the source uses it.) -/
def pyInt (s : PyStr) : Option Int :=
  match pyStrip s with
  | '-' :: ds => if pyIsDigit ds then some (-(digitsToNat ds : Int)) else none
  | '+' :: ds => if pyIsDigit ds then some (digitsToNat ds : Int) else none
  | ds => if pyIsDigit ds then some (digitsToNat ds : Int) else none

/-- Python `s.lower()` (ASCII, matching the ingredient texts involved). -/
def pyLower (s : PyStr) : PyStr := s.map Char.toLower

/-! ## Data model (`RecipeStep`, `Recipe`, stream fragments, loop state) -/

/-- `RecipeStep` of `gemini_service.py`: a step description plus the two
optional image fields (`image_data` holds the base64 payload string). -/
structure RecipeStep where
  description : PyStr
  image_data : Option PyStr := none
  image_mime_type : Option PyStr := none
deriving DecidableEq, Repr

/-- `Recipe` of `gemini_service.py`. -/
structure Recipe where
  title : PyStr
  description : PyStr
  ingredients : List PyStr
  prep_time : PyStr
  cook_time : PyStr
  servings : Int
  steps : List RecipeStep
deriving DecidableEq, Repr

/-- One unit of the streamed model response, after flattening chunk parts:
a text delta (`part.text`) or an inline image (`part.inline_data`, with
`data` the base64-encoded payload and its MIME type). -/
inductive Fragment where
  | textDelta (text : PyStr)
  | imageChunk (data mime : PyStr)
deriving DecidableEq, Repr

/-- Python truthiness of an `Optional[str]` field: `None` and `""` are
falsy (the source tests `if not step.image_data`). -/
def truthyOpt : Option PyStr → Bool
  | none => false
  | some s => !s.isEmpty

/-- The local variables of `generate_recipe`'s streaming loop.  The source's
`current_step` is an alias of the most recently appended step; it is
modelled by `haveCurrent` (is `current_step` not `None`?) together with
the last element of `steps`, which is the only step it can refer to. -/
structure GenState where
  title : PyStr
  descr : PyStr
  ingredients_list : List PyStr
  steps : List RecipeStep
  prep_time : PyStr
  cook_time : PyStr
  servings : Int
  haveCurrent : Bool
  current_step_num : Int
  pending_images : List (PyStr × PyStr)
  accumulated_text : PyStr
deriving DecidableEq, Repr

/-- The initial loop state (source lines 198-209). -/
def initState : GenState :=
  { title := [], descr := [], ingredients_list := [], steps := []
    prep_time := [], cook_time := [], servings := 0
    haveCurrent := false, current_step_num := 0
    pending_images := [], accumulated_text := [] }

/-- Apply `f` to the last element of a list (mutation of the source's
`current_step` alias, which is always the most recently appended step). -/
def modifyLast (f : RecipeStep → RecipeStep) : List RecipeStep → List RecipeStep
  | [] => []
  | [s] => [f s]
  | s :: rest => s :: modifyLast f rest

/-- Store an image on a step (`step.image_data = ...; step.image_mime_type = ...`). -/
def setImage (data mime : PyStr) (s : RecipeStep) : RecipeStep :=
  { s with image_data := some data, image_mime_type := some mime }

/-! ## In-stream text processing (source lines 243-336) -/

/-- `accumulated_text += text` (line 244). -/
def stageAccum (st : GenState) (text : PyStr) : GenState :=
  { st with accumulated_text := st.accumulated_text ++ text }

/-- Title extraction from the current delta (lines 246-253). -/
def stageTitle (st : GenState) (text : PyStr) : GenState :=
  if st.title.isEmpty && pyIn (pystr "##") text then
    let split_text := pySplit text (pystr "##")
    if 1 < split_text.length then
      let title_sections := pySplit (pyStrip (split_text.getD 1 [])) (pystr "\n")
      if !title_sections.isEmpty then { st with title := title_sections.getD 0 [] }
      else st
    else st
  else st

/-- Description extraction from the current delta (lines 255-262).  Note:
no "already set" guard — a later delta containing the label overwrites. -/
def stageDescr (st : GenState) (text : PyStr) : GenState :=
  if pyIn (pystr "**Prep time:**") text then
    let description_parts := pyStrip ((pySplit text (pystr "**Prep time:**")).getD 0 [])
    if pyIn (pystr "**") description_parts then
      let description_split := pySplit description_parts (pystr "**")
      if 1 < description_split.length then
        { st with descr := pyStrip (description_split.getLastD []) }
      else st
    else st
  else st

/-- Prep-time extraction from the current delta (lines 264-268); overwrites
any earlier value when the new candidate is non-empty. -/
def stagePrep (st : GenState) (text : PyStr) : GenState :=
  if pyIn (pystr "**Prep time:**") text then
    let prep_parts :=
      pyStrip ((pySplit ((pySplit text (pystr "**Prep time:**")).getD 1 []) (pystr "\n")).getD 0 [])
    if !prep_parts.isEmpty then { st with prep_time := prep_parts } else st
  else st

/-- Cook-time extraction from the current delta (lines 271-276). -/
def stageCook (st : GenState) (text : PyStr) : GenState :=
  if pyIn (pystr "**Cook time:**") text then
    let cook_parts :=
      pyStrip ((pySplit ((pySplit text (pystr "**Cook time:**")).getD 1 []) (pystr "\n")).getD 0 [])
    if !cook_parts.isEmpty then { st with cook_time := cook_parts } else st
  else st

/-- Servings extraction from the current delta (lines 278-286): first
whitespace token after the label, parsed as `int`; any failure inside the
`try` (missing token or unparsable number) sets the default 2. -/
def stageServings (st : GenState) (text : PyStr) : GenState :=
  if pyIn (pystr "**Servings:**") text then
    let servings_text :=
      pyStrip ((pySplit ((pySplit text (pystr "**Servings:**")).getD 1 []) (pystr "\n")).getD 0 [])
    match pySplitWs servings_text with
    | [] => { st with servings := 2 }
    | tok :: _ =>
      match pyInt tok with
      | some n => { st with servings := n }
      | none => { st with servings := 2 }
  else st

/-- Body of the `for i in range(1, len(step_parts))` loop of lines 294-336.
`total` is `len(step_parts)` and `i` the current index.  A step is created
only when `":**"` occurs in the piece; the new step becomes the current
step, and if it is the very first step a pending image is attached to it. -/
def stepLoop (total : Nat) : Nat → List PyStr → GenState → GenState
  | _, [], st => st
  | i, step_text :: rest, st =>
    let step_num : Int :=
      match pyInt ((splitN1 step_text (pystr ":")).getD 0 []) with
      | some n => n
      | none => st.current_step_num + 1
    let st' :=
      if pyIn (pystr ":**") step_text then
        let step_desc0 := (splitN1 step_text (pystr ":**")).getD 1 []
        let step_desc :=
          if pyIn (pystr "---") step_desc0 then
            pyStrip ((pySplit step_desc0 (pystr "---")).getD 0 [])
          else if pyIn (pystr "**Step ") step_desc0 && decide (i < total - 1) then
            -- unreachable: step_desc0 is a piece of a split on "**Step "
            pyStrip ((pySplit step_desc0 (pystr "**Step ")).getD 0 [])
          else pyStrip step_desc0
        let new_step : RecipeStep := { description := step_desc }
        let st1 := { st with steps := st.steps ++ [new_step],
                             haveCurrent := true, current_step_num := step_num }
        if !st1.pending_images.isEmpty && st1.steps.length == 1 then
          match st1.pending_images with
          | [] => st1
          | (img_data, mime) :: ptl =>
            { st1 with steps := modifyLast (setImage img_data mime) st1.steps,
                       pending_images := ptl }
        else st1
      else st
    stepLoop total (i + 1) rest st'

/-- Step-marker detection in the current delta (lines 288-336). -/
def stageSteps (st : GenState) (text : PyStr) : GenState :=
  if pyIn (pystr "**Step ") text then
    let step_parts := pySplit text (pystr "**Step ")
    stepLoop step_parts.length 1 (step_parts.drop 1) st
  else st

/-- Processing of one text part (lines 243-336), in source order. -/
def processText (st : GenState) (text : PyStr) : GenState :=
  stageSteps
    (stageServings
      (stageCook (stagePrep (stageDescr (stageTitle (stageAccum st text) text) text) text) text)
    text) text

/-- Processing of one image part (lines 339-360): attach to the current
step if it has no (truthy) image yet, else enqueue FIFO. -/
def processImage (st : GenState) (data mime : PyStr) : GenState :=
  if st.haveCurrent then
    if !truthyOpt ((st.steps.getLastD { description := [] }).image_data) then
      { st with steps := modifyLast (setImage data mime) st.steps }
    else { st with pending_images := st.pending_images ++ [(data, mime)] }
  else { st with pending_images := st.pending_images ++ [(data, mime)] }

/-- Dispatch of one stream fragment (lines 236-360).  Text parts that are
empty are skipped by the source's `if hasattr(part, "text") and part.text`
truthiness test. -/
def processFragment (st : GenState) : Fragment → GenState
  | .textDelta text => if text.isEmpty then st else processText st text
  | .imageChunk data mime => processImage st data mime

/-! ## The fallback regex scan (source lines 370-388)

The pattern is the concrete regular expression
`\*\*Step (\d+):\s*([^*]+)\*\*\s*(.*?)(?=\*\*Step \d+:|$)` used with
`re.DOTALL` and `re.findall`, specialised here: after the literal
`"**Step "` come the maximal digit run (group 1, non-empty, necessarily
followed by `":"`), then `\s*([^*]+)` — together one non-empty run of
non-`*` characters, of which group 2 is the part left after the greedy
whitespace prefix backtracks just enough to leave group 2 non-empty —
then the literal `"**"`, then a greedy whitespace run, then the lazy
group 3: the shortest stretch ending where the lookahead
`\*\*Step \d+:` matches, or all of the rest if it never does.
`re.findall` scans left to right and resumes after each match (the
lookahead is not consumed). -/

/-- Remove `p` from the front of `s` if it starts with it. -/
def dropStart : PyStr → PyStr → Option PyStr
  | [], s => some s
  | _ :: _, [] => none
  | p :: ps, c :: cs => if p == c then dropStart ps cs else none

/-- Does the lookahead `\*\*Step \d+:` match at the front of `u`? -/
def lookaheadStep (u : PyStr) : Bool :=
  match dropStart (pystr "**Step ") u with
  | none => false
  | some v =>
    let ds := v.takeWhile Char.isDigit
    !ds.isEmpty && pyStarts (pystr ":") (v.drop ds.length)

/-- Index of the first position in `s` where the lookahead
`(?=\*\*Step \d+:|$)` matches.  Besides the step-marker alternative, `$`
(the pattern is compiled without `re.MULTILINE`) matches at the end of the
string and also just before a newline that is the string's last
character; since this function only ever recurses on suffixes of the
scanned text, the suffix `['\n']` is exactly that position. -/
def findLookahead : PyStr → Nat
  | [] => 0
  | c :: rest =>
    if lookaheadStep (c :: rest) || (c = '\n' && rest.isEmpty) then 0
    else 1 + findLookahead rest

/-- Try to match the step pattern at the start of `s`.  On success returns
the three captured groups and the remainder of the string after the match
(where `findall` resumes scanning). -/
def matchStepAt (s : PyStr) : Option (PyStr × PyStr × PyStr × PyStr) :=
  match dropStart (pystr "**Step ") s with
  | none => none
  | some t =>
    let digits := t.takeWhile Char.isDigit
    if digits.isEmpty then none
    else
      match t.drop digits.length with
      | ':' :: t3 =>
        let w := t3.takeWhile fun c => c ≠ '*'
        if w.isEmpty then none
        else
          match t3.drop w.length with
          | '*' :: '*' :: t5 =>
            let sp := (w.takeWhile pyIsSpace).length
            let label := w.drop (min sp (w.length - 1))
            let t6 := t5.drop (t5.takeWhile pyIsSpace).length
            let j := findLookahead t6
            some (digits, label, t6.take j, t6.drop j)
          | _ => none
      | _ => none

/-- `re.findall` scan: try a match at every position, resuming after each
match.  Structurally recursive on fuel; every successful match consumes at
least the literal `"**Step "`, so fuel `s.length + 1` never runs out. -/
def findAllSteps : Nat → PyStr → List (PyStr × PyStr × PyStr)
  | 0, _ => []
  | fuel + 1, s =>
    match matchStepAt s with
    | some (d, l, b, r) => (d, l, b) :: findAllSteps fuel r
    | none =>
      match s with
      | [] => []
      | _ :: rest => findAllSteps fuel rest

/-- All matches of the step pattern in `s`, in scan order. -/
def regexStepMatches (s : PyStr) : List (PyStr × PyStr × PyStr) :=
  findAllSteps (s.length + 1) s

/-- Build one step from a regex match (lines 376-388).  The source also
computes `step_num = int(match[0]) if match[0].isdigit() else 0`, which is
only printed, never stored. -/
def regexStep (m : PyStr × PyStr × PyStr) : RecipeStep :=
  let step_title := pyStrip m.2.1
  let step_desc0 := pyStrip m.2.2
  let step_desc :=
    if pyIn (pystr "---") step_desc0 then pyStrip ((pySplit step_desc0 (pystr "---")).getD 0 [])
    else step_desc0
  { description := step_title ++ pystr ": " ++ step_desc }

/-! ## Post-stream section (source lines 366-458) and assembly -/

/-- Body of the simpler split-on-marker fallback loop (lines 395-411). -/
def simpleLoop : List PyStr → List RecipeStep
  | [] => []
  | step_text :: rest =>
    if pyIn (pystr ":**") step_text then
      let step_desc0 := (pySplit step_text (pystr ":**")).getD 1 []
      let step_desc :=
        if pyIn (pystr "---") step_desc0 then
          pyStrip ((pySplit step_desc0 (pystr "---")).getD 0 [])
        else if pyIn (pystr "**Step ") step_desc0 then
          -- unreachable: step_text is a piece of a split on "**Step "
          pyStrip ((pySplit step_desc0 (pystr "**Step ")).getD 0 [])
        else pyStrip step_desc0
      { description := step_desc } :: simpleLoop rest
    else simpleLoop rest

/-- The simpler fallback (lines 392-411): split the accumulated text on the
step marker and keep every piece containing `":**"`. -/
def simpleSteps (accumulated : PyStr) : List RecipeStep :=
  simpleLoop ((pySplit accumulated (pystr "**Step ")).drop 1)

/-- Step extraction from the final accumulated text (lines 366-412),
invoked only when streaming produced no steps: regex scan first, simple
split scan if the regex found nothing. -/
def fallbackSteps (accumulated : PyStr) : List RecipeStep :=
  let regex_steps := (regexStepMatches accumulated).map regexStep
  if regex_steps.isEmpty then simpleSteps accumulated else regex_steps

/-- The pending-image drain loop (lines 418-426): walk the steps in order,
assigning the oldest pending image to each step lacking a (truthy) image,
until the queue empties. -/
def drainImages : List RecipeStep → List (PyStr × PyStr) → List RecipeStep × List (PyStr × PyStr)
  | [], pending => ([], pending)
  | step :: rest, [] => (step :: rest, [])
  | step :: rest, (img_data, mime) :: ptl =>
    if !truthyOpt step.image_data then
      let (rest', pending') := drainImages rest ptl
      (setImage img_data mime step :: rest', pending')
    else
      let (rest', pending') := drainImages rest ((img_data, mime) :: ptl)
      (step :: rest', pending')

/-- Ingredient-line loop (lines 443-448): each stripped line that starts
with `*` or `-` yields the line with all leading `*`, `-`, ` ` removed and
stripped, kept when non-empty. -/
def ingLoop : List PyStr → List PyStr
  | [] => []
  | line :: rest =>
    let l := pyStrip line
    if !l.isEmpty && (pyStarts (pystr "*") l || pyStarts (pystr "-") l) then
      let ingredient := pyStrip (pyLstripBullets l)
      if !ingredient.isEmpty then ingredient :: ingLoop rest else ingLoop rest
    else ingLoop rest

/-- Ingredients extraction from the final accumulated text
(lines 432-448), under the guard that the label occurs: the window after
`"**Ingredients:**"` is cut at `"**Step 1"` if that literal occurs, else
at `"---"` if that occurs, and its bulleted lines are collected. -/
def extractIngredients (accumulated : PyStr) : List PyStr :=
  let ingredients_section := (pySplit accumulated (pystr "**Ingredients:**")).getD 1 []
  let ingredients_section :=
    if pyIn (pystr "**Step 1") ingredients_section then
      (pySplit ingredients_section (pystr "**Step 1")).getD 0 []
    else if pyIn (pystr "---") ingredients_section then
      (pySplit ingredients_section (pystr "---")).getD 0 []
    else ingredients_section
  ingLoop (pySplit ingredients_section (pystr "\n"))

/-- Lines 366-412: when streaming produced no steps and there is
accumulated text, extract steps from it. -/
def postFallbackSteps (st : GenState) : GenState :=
  if st.steps.isEmpty && !st.accumulated_text.isEmpty then
    { st with steps := fallbackSteps st.accumulated_text }
  else st

/-- Lines 414-426: drain the pending images into image-less steps. -/
def postDrain (st : GenState) : GenState :=
  if !st.pending_images.isEmpty && !st.steps.isEmpty then
    let dr := drainImages st.steps st.pending_images
    { st with steps := dr.1, pending_images := dr.2 }
  else st

/-- Lines 429-450: extract ingredients from the accumulated text (the
`if not ingredients_list` guard is always true here, since nothing before
this point assigns the list). -/
def postIngredients (st : GenState) : GenState :=
  if st.ingredients_list.isEmpty then
    if pyIn (pystr "**Ingredients:**") st.accumulated_text then
      { st with ingredients_list := extractIngredients st.accumulated_text }
    else st
  else st

/-- Lines 453-458: title fallback from the accumulated text. -/
def postTitle (st : GenState) : GenState :=
  if st.title.isEmpty && !st.accumulated_text.isEmpty then
    if pyIn (pystr "##") st.accumulated_text then
      let title_candidate :=
        (pySplit (pyStrip ((pySplit st.accumulated_text (pystr "##")).getD 1 [])) (pystr "\n")).getD 0 []
      if !title_candidate.isEmpty then { st with title := title_candidate } else st
    else st
  else st

/-- The whole post-loop section (lines 366-458), run only when the stream
ends normally: conditional step fallback, pending-image drain, ingredient
extraction, title fallback. -/
def postStream (st : GenState) : GenState :=
  postTitle (postIngredients (postDrain (postFallbackSteps st)))

/-- Final assembly (lines 469-478): Python truthiness supplies the
documented defaults for falsy (empty / zero) fields. -/
def assembleRecipe (st : GenState) : Recipe :=
  { title := if !st.title.isEmpty then st.title else pystr "Delicious Recipe"
    description := if !st.descr.isEmpty then st.descr
                   else pystr "A tasty recipe made with your ingredients"
    ingredients := st.ingredients_list
    prep_time := if !st.prep_time.isEmpty then st.prep_time else pystr "15 minutes"
    cook_time := if !st.cook_time.isEmpty then st.cook_time else pystr "30 minutes"
    servings := if st.servings ≠ 0 then st.servings else 2
    steps := st.steps }

/-- `generate_recipe`'s streaming core: consume the fragments the stream
yielded in order; if the stream then terminated abnormally
(`stream_error = true`), the `except` handler of lines 460-462 skips the
whole post-loop section and falls through to assembly; on normal
termination the post-loop section runs first.  (The surrounding
prompt-building, API call, and the outer `except` that returns `None` on
failures outside the stream are not part of the reconstruction core.) -/
def generate_recipe (frags : List Fragment) (stream_error : Bool) : Recipe :=
  let st := frags.foldl processFragment initState
  if stream_error then assembleRecipe st
  else assembleRecipe (postStream st)

/-! ## `categorize_ingredients` (source lines 59-84) -/

/-- Does some user ingredient occur, case-insensitively, inside `ing`?
This is the exit condition of the inner `for user_ingredient ...  break`
loop, which sets `found` exactly when some user ingredient matches. -/
def availMatch (user_ingredients : List PyStr) (ing : PyStr) : Bool :=
  user_ingredients.any fun u => pyIn (pyLower u) (pyLower ing)

/-- `categorize_ingredients`: partition the recipe ingredients, in order,
into those some user ingredient matches and the rest. -/
def categorize_ingredients (user_ingredients : List PyStr) :
    List PyStr → List PyStr × List PyStr
  | [] => ([], [])
  | ing :: rest =>
    let (available, unavailable) := categorize_ingredients user_ingredients rest
    if availMatch user_ingredients ing then (ing :: available, unavailable)
    else (available, ing :: unavailable)

/-! ## Auxiliary definitions used by the claim statements -/

/-- Text strictly before the first occurrence of `sep` in `s` (all of `s`
when `sep` does not occur). -/
def beforeFirst (sep s : PyStr) : PyStr :=
  match splitFirst sep s with
  | none => s
  | some (pre, _) => pre

/-- Text strictly after the first occurrence of `sep` in `s` (empty when
`sep` does not occur). -/
def afterFirst (sep s : PyStr) : PyStr :=
  match splitFirst sep s with
  | none => []
  | some (_, post) => post

/-- The ingredient one stripped line contributes, if any: the line must be
non-empty and start with `*` or `-`; all leading `*`, `-`, ` ` characters
are removed and the rest trimmed; an entry that becomes empty is dropped.
This is the per-line behaviour of the source's lines 443-448, phrased as a
`filterMap` step. -/
def ingredientOfLine (line : PyStr) : Option PyStr :=
  let l := pyStrip line
  if !l.isEmpty && (pyStarts (pystr "*") l || pyStarts (pystr "-") l) then
    let ingredient := pyStrip (pyLstripBullets l)
    if !ingredient.isEmpty then some ingredient else none
  else none

/-- The window of the accumulated text the source scans for ingredients:
the text between the first `"**Ingredients:**"` and the next occurrence of
that label (or end of text), cut at the literal `"**Step 1"` when that
occurs, else at the first `"---"` when that occurs. -/
def ingredientsWindow (t : PyStr) : PyStr :=
  let w := beforeFirst (pystr "**Ingredients:**") (afterFirst (pystr "**Ingredients:**") t)
  if pyIn (pystr "**Step 1") w then beforeFirst (pystr "**Step 1") w
  else if pyIn (pystr "---") w then beforeFirst (pystr "---") w
  else w

/-- The ingredient extraction exactly as claim C9 words it (a second
definition following the claim's words, for comparison with
`extractIngredients`, which is translated from the source): the window
runs from the ingredients label to the first step marker (`"**Step "`),
or a horizontal-rule marker, or end of text; each line of the window that
begins with the bullet marker `*` or `-` contributes the line with that
one bullet marker stripped and surrounding whitespace trimmed; empty
lines are skipped. -/
def claimedIngredients (t : PyStr) : List PyStr :=
  let w := beforeFirst (pystr "**Ingredients:**") (afterFirst (pystr "**Ingredients:**") t)
  let w :=
    if pyIn (pystr "**Step ") w then beforeFirst (pystr "**Step ") w
    else if pyIn (pystr "---") w then beforeFirst (pystr "---") w
    else w
  (pySplit w (pystr "\n")).filterMap fun line =>
    let l := pyStrip line
    if l.isEmpty then none
    else if pyStarts (pystr "*") l || pyStarts (pystr "-") l then some (pyStrip (l.drop 1))
    else none

/-- The title fallback candidate of source lines 455-458 (empty when the
heading marker is absent or the candidate line is empty). -/
def fallbackTitle (accumulated : PyStr) : PyStr :=
  if pyIn (pystr "##") accumulated then
    (pySplit (pyStrip ((pySplit accumulated (pystr "##")).getD 1 [])) (pystr "\n")).getD 0 []
  else []

/-- The guarded ingredient fallback of source lines 429-450 as a function
of the accumulated text. -/
def fallbackIngredients (accumulated : PyStr) : List PyStr :=
  if pyIn (pystr "**Ingredients:**") accumulated then extractIngredients accumulated else []

/-! ## Exception-instrumented fallback (for the totality claim C8)

Every Python list subscript `xs[i]` of the fallback code (lines 370-412,
429-448, 453-458) is a potential `IndexError`; `pyGetE` models it.  The
`int(...)` of line 377 is guarded by the `isdigit()` conditional
expression and cannot raise, and `re.findall` never raises.  The
instrumented functions mirror the plain ones subscript for subscript;
the totality theorem states they never return an error. -/

/-- Python list subscripting: `xs[i]`, raising when out of range. -/
def pyGetE (l : List PyStr) (i : Nat) : Except Unit PyStr :=
  if h : i < l.length then .ok l[i] else .error ()

/-- Instrumented step construction from one regex match (lines 376-388). -/
def regexStepE (m : PyStr × PyStr × PyStr) : Except Unit RecipeStep := do
  let step_title := pyStrip m.2.1
  let step_desc0 := pyStrip m.2.2
  let step_desc ←
    if pyIn (pystr "---") step_desc0 then do
      let piece ← pyGetE (pySplit step_desc0 (pystr "---")) 0
      pure (pyStrip piece)
    else pure step_desc0
  pure { description := step_title ++ pystr ": " ++ step_desc }

/-- Instrumented regex-result loop (lines 376-388). -/
def regexLoopE : List (PyStr × PyStr × PyStr) → Except Unit (List RecipeStep)
  | [] => pure []
  | m :: rest => do
    let s ← regexStepE m
    let ss ← regexLoopE rest
    pure (s :: ss)

/-- Instrumented simple split-on-marker loop (lines 395-411). -/
def simpleLoopE : List PyStr → Except Unit (List RecipeStep)
  | [] => pure []
  | step_text :: rest =>
    if pyIn (pystr ":**") step_text then do
      let step_desc0 ← pyGetE (pySplit step_text (pystr ":**")) 1
      let step_desc ←
        if pyIn (pystr "---") step_desc0 then do
          let piece ← pyGetE (pySplit step_desc0 (pystr "---")) 0
          pure (pyStrip piece)
        else if pyIn (pystr "**Step ") step_desc0 then do
          let piece ← pyGetE (pySplit step_desc0 (pystr "**Step ")) 0
          pure (pyStrip piece)
        else pure (pyStrip step_desc0)
      let rest' ← simpleLoopE rest
      pure (({ description := step_desc } : RecipeStep) :: rest')
    else simpleLoopE rest

/-- Instrumented step fallback (lines 370-412). -/
def fallbackStepsE (accumulated : PyStr) : Except Unit (List RecipeStep) := do
  let regex_steps ← regexLoopE (regexStepMatches accumulated)
  if regex_steps.isEmpty then simpleLoopE ((pySplit accumulated (pystr "**Step ")).drop 1)
  else pure regex_steps

/-- Instrumented guarded ingredient fallback (lines 429-450). -/
def fallbackIngredientsE (accumulated : PyStr) : Except Unit (List PyStr) :=
  if pyIn (pystr "**Ingredients:**") accumulated then do
    let sec ← pyGetE (pySplit accumulated (pystr "**Ingredients:**")) 1
    let sec ←
      if pyIn (pystr "**Step 1") sec then pyGetE (pySplit sec (pystr "**Step 1")) 0
      else if pyIn (pystr "---") sec then pyGetE (pySplit sec (pystr "---")) 0
      else pure sec
    pure (ingLoop (pySplit sec (pystr "\n")))
  else pure []

/-- Instrumented guarded title fallback (lines 453-458). -/
def fallbackTitleE (accumulated : PyStr) : Except Unit PyStr :=
  if pyIn (pystr "##") accumulated then do
    let piece ← pyGetE (pySplit accumulated (pystr "##")) 1
    pyGetE (pySplit (pyStrip piece) (pystr "\n")) 0
  else pure []

/-- The whole instrumented fallback parse over a final accumulated text. -/
def fallbackParseE (accumulated : PyStr) : Except Unit (List RecipeStep × List PyStr × PyStr) := do
  let steps ← fallbackStepsE accumulated
  let ings ← fallbackIngredientsE accumulated
  let title ← fallbackTitleE accumulated
  pure (steps, ings, title)

/-! ## Counting definitions for the image-pairing claim C4 -/

/-- Does a step carry an image, in the sense the source tests
(`step.image_data` truthy)? -/
def bearing (s : RecipeStep) : Bool := truthyOpt s.image_data

/-- Number of `ImageChunk` fragments in a stream. -/
def imgCount (frags : List Fragment) : Nat :=
  frags.countP fun f =>
    match f with
    | .imageChunk _ _ => true
    | _ => false

/-- Invariant of the streaming loop tying images to state: the images
consumed so far are exactly the image-bearing steps plus the pending
queue; queued payloads are non-empty; a step's image field is `None` or a
non-empty payload; and a current step exists only if some step exists. -/
def ImgInv (st : GenState) (consumed : Nat) : Prop :=
  st.steps.countP bearing + st.pending_images.length = consumed ∧
  (∀ p ∈ st.pending_images, p.1 ≠ ([] : PyStr)) ∧
  (∀ s ∈ st.steps, s.image_data = none ∨ ∃ d, s.image_data = some d ∧ d ≠ []) ∧
  (st.haveCurrent = true → st.steps ≠ [])

/-! ## Claim theorems -/

/-- C1, counterexample.  The claim quantifies over every stream in which a
single step marker and its body are split across two consecutive text
fragments.  For the split `"**Step 1:** Boil"` / `" pasta."` the step is
created as soon as the first fragment arrives, with the body truncated at
the fragment boundary: the resulting steps list is `["Boil"]`, not the
single-fragment result `["Boil pasta."]`.  And when the marker itself
straddles the boundary (`"**Step "` / `"2:** B"`) after an earlier step
was extracted in-stream, the fallback never runs (steps is non-empty), so
the split step is reconstructed as *zero* steps, not one. -/
theorem C1_counterexample :
    (generate_recipe [Fragment.textDelta (pystr "**Step 1:** Boil"),
        Fragment.textDelta (pystr " pasta.")] false).steps =
      [{ description := pystr "Boil" }] ∧
    (generate_recipe [Fragment.textDelta (pystr "**Step 1:** Boil pasta.")] false).steps =
      [{ description := pystr "Boil pasta." }] ∧
    (generate_recipe [Fragment.textDelta (pystr "**Step 1:** Boil"),
        Fragment.textDelta (pystr " pasta.")] false).steps ≠
      (generate_recipe [Fragment.textDelta (pystr "**Step 1:** Boil pasta.")] false).steps ∧
    (generate_recipe [Fragment.textDelta (pystr "**Step 1:** A"),
        Fragment.textDelta (pystr "**Step "),
        Fragment.textDelta (pystr "2:** B")] false).steps =
      [{ description := pystr "A" }] := by
  decide

/-- C1, amended: when the split point falls inside the step marker itself
(before its closing `":**"` is complete) — as in the claim's own example
`"**Step "` / `"1:** Boil pasta."` — no step is created during streaming,
and the end-of-stream fallback over the concatenated accumulated text
reconstructs exactly one step whose description is the full body, equal to
the single-fragment result; a split after the `":**"` instead truncates
the step at the fragment boundary (see the counterexample). -/
theorem C1_amended :
    (generate_recipe [Fragment.textDelta (pystr "**Step "),
        Fragment.textDelta (pystr "1:** Boil pasta.")] false).steps =
      [{ description := pystr "Boil pasta." }] ∧
    (generate_recipe [Fragment.textDelta (pystr "**Step 1"),
        Fragment.textDelta (pystr ":** Boil pasta.")] false).steps =
      [{ description := pystr "Boil pasta." }] ∧
    (generate_recipe [Fragment.textDelta (pystr "**Step 1:** Boil pasta.")] false).steps =
      [{ description := pystr "Boil pasta." }] := by
  decide

/-- C2, counterexample.  The post-loop fallback section (source lines
366-458) sits inside the `try` block, so when the stream raises after a
text fragment containing a well-formed ingredients block, the `except`
handler of lines 460-462 jumps straight to assembly: the returned recipe
has no ingredients, although the fallback extraction the claim promises
would have produced `["pasta"]` (as the normal-termination run shows). -/
theorem C2_counterexample :
    (generate_recipe [Fragment.textDelta (pystr "## T\n**Ingredients:**\n* pasta\n")]
        true).ingredients = [] ∧
    (generate_recipe [Fragment.textDelta (pystr "## T\n**Ingredients:**\n* pasta\n")]
        false).ingredients = [pystr "pasta"] := by
  decide

/-- C2, amended: when the fragment stream terminates abnormally after some
fragments were consumed, `generate_recipe` does return a `Recipe` built
from the partial accumulated state rather than discarding it, but it
assembles that state directly — the fallback extraction of steps,
ingredients and title and the pending-image drain are all skipped,
because the exception transfers control past them to the handler. -/
theorem C2_amended (frags : List Fragment) :
    generate_recipe frags true = assembleRecipe (frags.foldl processFragment initState) := rfl

/-- C3, counterexample.  A servings label with a negative count is parsed
by `int()` without error and survives assembly (Python `servings if
servings else 2` only replaces zero), so the assembled `servings` is `-3`,
violating the claimed `servings ≥ 1`. -/
theorem C3_counterexample :
    (generate_recipe [Fragment.textDelta (pystr "**Servings:** -3\n")] false).servings = -3 ∧
    ¬(1 ≤ (generate_recipe [Fragment.textDelta (pystr "**Servings:** -3\n")] false).servings) := by
  decide

/-- C7: a stream yielding zero text fragments and zero image fragments
produces (without signalling an error) the all-defaults recipe — title
`"Delicious Recipe"`, the default description, prep time `"15 minutes"`,
cook time `"30 minutes"`, servings 2 — with empty ingredients and steps. -/
theorem C7_empty_stream :
    generate_recipe [] false =
      { title := pystr "Delicious Recipe"
        description := pystr "A tasty recipe made with your ingredients"
        ingredients := []
        prep_time := pystr "15 minutes"
        cook_time := pystr "30 minutes"
        servings := 2
        steps := [] } := by
  decide

/-- C5, counterexample.  After the first fragment `prep_time` is set to
the non-empty value `"5m"`, yet processing a later fragment that also
contains the `"**Prep time:**"` label overwrites it with `"7m"`: the
extraction of `prep_time` is not idempotent (the source guards only
`title` with an "already set" test). -/
theorem C5_counterexample :
    (generate_recipe [Fragment.textDelta (pystr "**Prep time:** 5m\n")] false).prep_time =
      pystr "5m" ∧
    (generate_recipe [Fragment.textDelta (pystr "**Prep time:** 5m\n"),
        Fragment.textDelta (pystr "**Prep time:** 7m\n")] false).prep_time = pystr "7m" ∧
    pystr "7m" ≠ pystr "5m" := by
  decide

/-- C6, counterexample.  A step marker immediately followed by the end of
the text (`"**Step 1:**"`) yields a step whose description is the empty
string, contradicting the claim that every step of the returned recipe
has a non-empty description. -/
theorem C6_counterexample :
    (generate_recipe [Fragment.textDelta (pystr "**Step 1:**")] false).steps =
      [{ description := [] }] := by
  decide

/-- C4, counterexample.  Text with two step markers arrives, then a single
image: `min(N, M) = 1`, and the claim says the first step (in step order)
receives the image, but the source attaches an arriving image to the
*current* (most recently created) step, so step 2 gets it and step 1 ends
without an image. -/
theorem C4_counterexample :
    (generate_recipe [Fragment.textDelta (pystr "**Step 1:** A\n**Step 2:** B\n"),
        Fragment.imageChunk (pystr "X") (pystr "image/png")] false).steps.map
      (fun s => s.image_data) = [none, some (pystr "X")] := by
  decide

/-- C9, counterexample.  For a text whose first step marker is
`"**Step 2"`, the claim's window (label to first step marker) contains
only the bulleted line `* a`, but the source cuts the window at the
literal `"**Step 1"` only — absent here — so the step line itself is
swept up as a bullet line and a second bogus ingredient
`"Step 2:** chop"` is extracted. -/
theorem C9_counterexample :
    (generate_recipe [Fragment.textDelta (pystr "**Ingredients:**\n* a\n**Step 2:** chop\n")]
        false).ingredients = [pystr "a", pystr "Step 2:** chop"] ∧
    claimedIngredients (pystr "**Ingredients:**\n* a\n**Step 2:** chop\n") = [pystr "a"] ∧
    (generate_recipe [Fragment.textDelta (pystr "**Ingredients:**\n* a\n**Step 2:** chop\n")]
        false).ingredients ≠
      claimedIngredients (pystr "**Ingredients:**\n* a\n**Step 2:** chop\n") := by
  decide

/-- C3, amended: for every input stream (normal or abnormal termination),
the assembled recipe has non-empty `title`, `description`, `prep_time`
and `cook_time` (defaults substituted for empty fields, prep
`"15 minutes"`, cook `"30 minutes"`), and a *non-zero* `servings`
(default 2 substituted when never extracted, parsed as zero, or when
parsing failed) — but `servings` may be negative, so `≥ 1` does not hold
in general; the assembly itself is a total function. -/
theorem C3_amended (frags : List Fragment) (stream_error : Bool) :
    (generate_recipe frags stream_error).title ≠ [] ∧
    (generate_recipe frags stream_error).description ≠ [] ∧
    (generate_recipe frags stream_error).prep_time ≠ [] ∧
    (generate_recipe frags stream_error).cook_time ≠ [] ∧
    (generate_recipe frags stream_error).servings ≠ 0 := by
  have key : ∀ st : GenState,
      (assembleRecipe st).title ≠ [] ∧ (assembleRecipe st).description ≠ [] ∧
      (assembleRecipe st).prep_time ≠ [] ∧ (assembleRecipe st).cook_time ≠ [] ∧
      (assembleRecipe st).servings ≠ 0 := by
    intro st
    unfold assembleRecipe
    refine ⟨?_, ?_, ?_, ?_, ?_⟩ <;> dsimp only <;> split <;>
      simp_all [pystr, List.isEmpty_iff]
  cases stream_error
  · exact key _
  · exact key _

/-- C6, amended: every step produced by the regex fallback scan has a
non-empty description (it is `"<label>: <body>"`, which always contains
`": "`); the steps created by the in-stream extractor or by the simple
split scan instead carry the stripped marker body, which is empty when
the marker is immediately followed by a horizontal rule, another marker,
or the end of the text (see the counterexample). -/
theorem C6_amended (t : PyStr) (s : RecipeStep)
    (h : s ∈ (regexStepMatches t).map regexStep) : s.description ≠ [] := by
  obtain ⟨m, -, rfl⟩ := List.mem_map.mp h
  simp only [regexStep]
  intro hc
  simp [pystr] at hc

/-- Witness for C6: the regex fallback applied to a concrete text yields
the step `"Boil: do it"`, whose description the theorem proves non-empty. -/
theorem C6_witness :
    ({ description := pystr "Boil: do it" } : RecipeStep).description ≠ [] :=
  C6_amended (pystr "**Step 1: Boil**\ndo it") { description := pystr "Boil: do it" } (by decide)

/-- The two output lists of `categorize_ingredients` are the order-
preserving filters of the input by the match predicate and its negation. -/
theorem categorize_eq (users recs : List PyStr) :
    categorize_ingredients users recs =
      (recs.filter (availMatch users), recs.filter fun i => !availMatch users i) := by
  induction recs with
  | nil => rfl
  | cons a l ih =>
    by_cases h : availMatch users a <;>
      simp [categorize_ingredients, ih, List.filter_cons, h]

/-- C10: `categorize_ingredients` partitions the recipe ingredients — the
`available` and `unavailable` outputs are order-preserving sublists of
the input, every input ingredient lands in exactly the list its match
status selects, and an ingredient is available exactly when some user
ingredient, lowercased on both sides, occurs as a substring of it. -/
theorem C10_partition (users recs : List PyStr) :
    (categorize_ingredients users recs).1 = recs.filter (availMatch users) ∧
    (categorize_ingredients users recs).2 = (recs.filter fun i => !availMatch users i) ∧
    (∀ ing ∈ recs,
      (ing ∈ (categorize_ingredients users recs).1 ↔ availMatch users ing = true) ∧
      (ing ∈ (categorize_ingredients users recs).2 ↔ availMatch users ing = false)) ∧
    (∀ ing, availMatch users ing = true ↔
      ∃ u ∈ users, pyIn (pyLower u) (pyLower ing) = true) := by
  refine ⟨(congrArg Prod.fst (categorize_eq users recs)),
          (congrArg Prod.snd (categorize_eq users recs)), ?_, ?_⟩
  · intro ing hing
    rw [categorize_eq]
    constructor
    · simp [List.mem_filter, hing]
    · simp [List.mem_filter, hing]
  · intro ing
    simp [availMatch]

/-- Witness for C10 at a concrete pantry and recipe: `"Sea Salt"` is
available because `"salt"` occurs in it case-insensitively. -/
theorem C10_witness :
    pystr "Sea Salt" ∈
        (categorize_ingredients [pystr "salt"] [pystr "Sea Salt", pystr "pepper"]).1 ↔
      availMatch [pystr "salt"] (pystr "Sea Salt") = true :=
  ((C10_partition [pystr "salt"] [pystr "Sea Salt", pystr "pepper"]).2.2.1
    (pystr "Sea Salt") (by decide)).1

/-- Accumulating text does not touch the title field. -/
theorem stageAccum_title (st : GenState) (t : PyStr) : (stageAccum st t).title = st.title := rfl

/-- The title stage is guarded by `if not title`: a non-empty title is
never overwritten. -/
theorem stageTitle_title_of_ne (st : GenState) (t : PyStr) (h : st.title ≠ []) :
    (stageTitle st t).title = st.title := by
  have hE : st.title.isEmpty = false := by simp [List.isEmpty_iff, h]
  unfold stageTitle
  simp [hE]

/-- The description stage does not touch the title field. -/
theorem stageDescr_title (st : GenState) (t : PyStr) : (stageDescr st t).title = st.title := by
  unfold stageDescr
  dsimp only
  repeat' split
  all_goals rfl

/-- The prep-time stage does not touch the title field. -/
theorem stagePrep_title (st : GenState) (t : PyStr) : (stagePrep st t).title = st.title := by
  unfold stagePrep
  dsimp only
  repeat' split
  all_goals rfl

/-- The cook-time stage does not touch the title field. -/
theorem stageCook_title (st : GenState) (t : PyStr) : (stageCook st t).title = st.title := by
  unfold stageCook
  dsimp only
  repeat' split
  all_goals rfl

/-- The servings stage does not touch the title field. -/
theorem stageServings_title (st : GenState) (t : PyStr) :
    (stageServings st t).title = st.title := by
  unfold stageServings
  dsimp only
  repeat' split
  all_goals rfl

/-- The step-extraction loop does not touch the title field. -/
theorem stepLoop_title (total : Nat) (l : List PyStr) :
    ∀ (i : Nat) (st : GenState), (stepLoop total i l st).title = st.title := by
  induction l with
  | nil => intro i st; rfl
  | cons x rest ih =>
    intro i st
    simp only [stepLoop]
    rw [ih]
    try dsimp only
    repeat' split
    all_goals rfl

/-- Step detection does not touch the title field. -/
theorem stageSteps_title (st : GenState) (t : PyStr) : (stageSteps st t).title = st.title := by
  unfold stageSteps
  split
  · exact stepLoop_title _ _ _ _
  · rfl

/-- An image fragment does not touch the title field. -/
theorem processImage_title (st : GenState) (d m : PyStr) :
    (processImage st d m).title = st.title := by
  unfold processImage
  repeat' split
  all_goals rfl

/-- Processing one text part leaves a non-empty title unchanged. -/
theorem processText_title (st : GenState) (t : PyStr) (h : st.title ≠ []) :
    (processText st t).title = st.title := by
  unfold processText
  rw [stageSteps_title, stageServings_title, stageCook_title, stagePrep_title, stageDescr_title,
    stageTitle_title_of_ne _ _ (by rw [stageAccum_title]; exact h), stageAccum_title]

/-- Processing one fragment leaves a non-empty title unchanged. -/
theorem processFragment_title (st : GenState) (f : Fragment) (h : st.title ≠ []) :
    (processFragment st f).title = st.title := by
  cases f with
  | textDelta t =>
    show (if t.isEmpty then st else processText st t).title = st.title
    split
    · rfl
    · exact processText_title st t h
  | imageChunk d m => exact processImage_title st d m

/-- C5, amended: once `title` has been set to a non-empty value,
processing any further fragments never changes it (it is the only field
guarded by an "already set" test); `description`, `prep_time`,
`cook_time` and `servings` may each be overwritten by a later fragment
containing their label (see the counterexample for `prep_time`). -/
theorem C5_amended (st : GenState) (frags : List Fragment) (h : st.title ≠ []) :
    (frags.foldl processFragment st).title = st.title := by
  induction frags generalizing st with
  | nil => rfl
  | cons f rest ih =>
    have h1 : (processFragment st f).title = st.title := processFragment_title st f h
    rw [List.foldl_cons, ih (processFragment st f) (by rw [h1]; exact h), h1]

/-- Witness for C5: a state whose title was set by `"## T\n"` keeps that
title across a later fragment that also carries a heading marker. -/
theorem C5_witness :
    (([Fragment.textDelta (pystr "## U\n")]).foldl processFragment
        (processFragment initState (Fragment.textDelta (pystr "## T\n")))).title =
      (processFragment initState (Fragment.textDelta (pystr "## T\n"))).title :=
  C5_amended _ _ (by decide)

/-- A non-empty pattern never matches inside the empty string. -/
theorem splitFirst_nil_of_ne (sep : PyStr) (h : sep ≠ []) : splitFirst sep [] = none := by
  cases sep with
  | nil => exact absurd rfl h
  | cons c cs => rfl

/-- A string is at least as long as any of its leading parts. -/
theorem pyStarts_length_le (p s : PyStr) (h : pyStarts p s = true) : p.length ≤ s.length := by
  induction p generalizing s with
  | nil => simp
  | cons c cs ih =>
    cases s with
    | nil => simp [pyStarts] at h
    | cons d ds =>
      simp only [pyStarts, Bool.and_eq_true] at h
      simpa using ih ds h.2

/-- The text after a found occurrence is strictly shorter than the whole
string (this is why the fuel of `splitGo` and `findAllSteps` suffices). -/
theorem splitFirst_post_lt (sep : PyStr) (hsep : sep ≠ []) :
    ∀ (s pre post : PyStr), splitFirst sep s = some (pre, post) → post.length < s.length := by
  intro s
  induction s with
  | nil =>
    intro pre post h
    rw [splitFirst_nil_of_ne sep hsep] at h
    exact absurd h (by simp)
  | cons c rest ih =>
    intro pre post h
    unfold splitFirst at h
    split at h
    · rename_i hst
      have h1 : post = (c :: rest).drop sep.length := by
        have := h
        simp only [Option.some.injEq, Prod.mk.injEq] at this
        exact this.2.symm
      have hlen : sep.length ≤ (c :: rest).length := pyStarts_length_le _ _ hst
      have hpos : 0 < sep.length := by
        cases sep with
        | nil => exact absurd rfl hsep
        | cons a b => simp
      rw [h1, List.length_drop]
      omega
    · rw [Option.map_eq_some'] at h
      obtain ⟨⟨p, q⟩, hq, hpq⟩ := h
      simp only [Prod.mk.injEq] at hpq
      have := ih p q hq
      rw [hpq.2.symm]
      simp only [List.length_cons]
      omega

/-- Python `split` never returns an empty list. -/
theorem splitGo_ne_nil (sep : PyStr) (fuel : Nat) (s : PyStr) : splitGo sep fuel s ≠ [] := by
  cases fuel with
  | zero => simp [splitGo]
  | succ k =>
    unfold splitGo
    split <;> simp

/-- The first piece of a worker run with positive fuel is the text before
the first occurrence of the separator. -/
theorem splitGo_head (sep : PyStr) (k : Nat) (s : PyStr) :
    (splitGo sep (k + 1) s).getD 0 [] = beforeFirst sep s := by
  unfold splitGo beforeFirst
  split <;> rfl

/-- `s.split(sep)[0]` is the text before the first occurrence of `sep`. -/
theorem pySplit_head (s sep : PyStr) (hsep : sep ≠ []) :
    (pySplit s sep).getD 0 [] = beforeFirst sep s := by
  unfold pySplit
  rw [if_neg (by simp [List.isEmpty_iff, hsep])]
  exact splitGo_head sep s.length s

/-- `t.split(sep)[1]` is the text between the first occurrence of `sep`
and the following occurrence (or end of text). -/
theorem pySplit_second (t sep : PyStr) (hsep : sep ≠ []) :
    (pySplit t sep).getD 1 [] = beforeFirst sep (afterFirst sep t) := by
  unfold pySplit
  rw [if_neg (by simp [List.isEmpty_iff, hsep])]
  show (splitGo sep (t.length + 1) t).getD 1 [] = _
  unfold splitGo
  cases hsf : splitFirst sep t with
  | none =>
    simp only [afterFirst, hsf]
    rw [show beforeFirst sep [] = [] from by
      unfold beforeFirst
      rw [splitFirst_nil_of_ne sep hsep]]
    rfl
  | some pr =>
    obtain ⟨pre, post⟩ := pr
    simp only [afterFirst, hsf]
    have hlt : post.length < t.length := splitFirst_post_lt sep hsep t pre post hsf
    obtain ⟨k, hk⟩ : ∃ k, t.length = k + 1 := ⟨t.length - 1, by omega⟩
    show (splitGo sep t.length post).getD 0 [] = _
    rw [hk]
    exact splitGo_head sep k post

/-- The imperative ingredient-line loop is the `filterMap` of the
per-line function. -/
theorem ingLoop_eq_filterMap (lines : List PyStr) :
    ingLoop lines = lines.filterMap ingredientOfLine := by
  induction lines with
  | nil => rfl
  | cons line rest ih =>
    simp only [ingLoop, List.filterMap_cons, ingredientOfLine]
    split
    · split
      · rw [ih]
      · rw [ih]
    · rw [ih]

/-- C9, amended: the extracted ingredients are the `filterMap` over the
lines of the window that runs from the ingredients label to the literal
`"**Step 1"` if it occurs, else to the first `"---"` if it occurs, else to
the next ingredients label or end of text; each line, after trimming,
that begins with `*` or `-` contributes the line with *all* leading `*`,
`-` and space characters removed and then trimmed, entries that become
empty being skipped (so the window is not cut at a first step marker
other than the literal `"**Step 1"` — see the counterexample). -/
theorem C9_amended (t : PyStr) :
    extractIngredients t =
      (pySplit (ingredientsWindow t) (pystr "\n")).filterMap ingredientOfLine := by
  simp only [extractIngredients, ingredientsWindow]
  rw [pySplit_second t (pystr "**Ingredients:**") (by decide)]
  split
  · rw [pySplit_head _ (pystr "**Step 1") (by decide), ingLoop_eq_filterMap]
  · split
    · rw [pySplit_head _ (pystr "---") (by decide), ingLoop_eq_filterMap]
    · rw [ingLoop_eq_filterMap]

/-- An in-range Python subscript returns the element. -/
theorem pyGetE_ok (l : List PyStr) (i : Nat) (h : i < l.length) :
    pyGetE l i = .ok (l.getD i []) := by
  unfold pyGetE
  rw [dif_pos h]
  rw [List.getD_eq_getElem?_getD, List.getElem?_eq_getElem h]
  rfl

/-- Python `split` always returns at least one piece, so `[0]` is safe. -/
theorem pySplit_length_pos (s sep : PyStr) : 0 < (pySplit s sep).length := by
  unfold pySplit
  split
  · simp
  · exact List.length_pos.mpr (splitGo_ne_nil sep (s.length + 1) s)

/-- After a positive `sub in s` test, `s.split(sub)` has at least two
pieces, so `[1]` is safe. -/
theorem pyIn_one_lt (s sep : PyStr) (hsep : sep ≠ []) (h : pyIn sep s = true) :
    1 < (pySplit s sep).length := by
  unfold pyIn at h
  rw [Bool.or_eq_true] at h
  have hsome : (splitFirst sep s).isSome = true := by
    rcases h with h | h
    · exact absurd (List.isEmpty_iff.mp h) hsep
    · exact h
  rw [Option.isSome_iff_exists] at hsome
  obtain ⟨⟨pre, post⟩, hsf⟩ := hsome
  unfold pySplit
  rw [if_neg (by simp [List.isEmpty_iff, hsep])]
  show 1 < (splitGo sep (s.length + 1) s).length
  unfold splitGo
  rw [hsf]
  have := List.length_pos.mpr (splitGo_ne_nil sep s.length post)
  simp only [List.length_cons]
  omega

/-- The instrumented regex-step builder never raises. -/
theorem regexStepE_ok (m : PyStr × PyStr × PyStr) : regexStepE m = .ok (regexStep m) := by
  unfold regexStepE regexStep
  simp only [bind, Except.bind]
  split
  · rw [pyGetE_ok _ _ (pySplit_length_pos _ _)]
    rfl
  · rfl

/-- The instrumented regex-result loop never raises. -/
theorem regexLoopE_ok (l : List (PyStr × PyStr × PyStr)) :
    regexLoopE l = .ok (l.map regexStep) := by
  induction l with
  | nil => rfl
  | cons m rest ih =>
    simp only [regexLoopE, bind, Except.bind, regexStepE_ok, ih, List.map_cons]
    rfl

/-- The instrumented simple split-scan loop never raises: every `[1]` is
guarded by an `in` test and every `[0]` is safe on a split result. -/
theorem simpleLoopE_ok (l : List PyStr) : simpleLoopE l = .ok (simpleLoop l) := by
  induction l with
  | nil => rfl
  | cons x rest ih =>
    simp only [simpleLoopE, simpleLoop, bind, Except.bind]
    split
    · rename_i hc
      rw [pyGetE_ok _ _ (pyIn_one_lt _ _ (by decide) hc)]
      dsimp only
      split
      · rw [pyGetE_ok _ _ (pySplit_length_pos _ _)]
        dsimp only
        rw [ih]
        rfl
      · split
        · rw [pyGetE_ok _ _ (pySplit_length_pos _ _)]
          dsimp only
          rw [ih]
          rfl
        · rw [ih]
          rfl
    · exact ih

/-- The instrumented step fallback never raises. -/
theorem fallbackStepsE_ok (accumulated : PyStr) :
    fallbackStepsE accumulated = .ok (fallbackSteps accumulated) := by
  simp only [fallbackStepsE, fallbackSteps, bind, Except.bind, regexLoopE_ok]
  split
  · exact simpleLoopE_ok _
  · rfl

/-- The instrumented ingredient fallback never raises. -/
theorem fallbackIngredientsE_ok (accumulated : PyStr) :
    fallbackIngredientsE accumulated = .ok (fallbackIngredients accumulated) := by
  simp only [fallbackIngredientsE, fallbackIngredients, extractIngredients, bind, Except.bind]
  split
  · rename_i hc
    rw [pyGetE_ok _ _ (pyIn_one_lt _ _ (by decide) hc)]
    dsimp only
    split
    · rw [pyGetE_ok _ _ (pySplit_length_pos _ _)]
      rfl
    · split
      · rw [pyGetE_ok _ _ (pySplit_length_pos _ _)]
        rfl
      · rfl
  · rfl

/-- The instrumented title fallback never raises. -/
theorem fallbackTitleE_ok (accumulated : PyStr) :
    fallbackTitleE accumulated = .ok (fallbackTitle accumulated) := by
  simp only [fallbackTitleE, fallbackTitle, bind, Except.bind]
  split
  · rename_i hc
    rw [pyGetE_ok _ _ (pyIn_one_lt _ _ (by decide) hc)]
    dsimp only
    rw [pyGetE_ok _ _ (pySplit_length_pos _ _)]
  · rfl

/-- C8: the fallback parse over the final accumulated text — the regex
step scan, the simpler split-on-marker step scan, the ingredients-section
scan and the title scan, with every Python list subscript instrumented as
a potential `IndexError` — is total: for every accumulated text it
returns `ok` with the values the plain fallback functions compute (every
`[1]` is guarded by an `in` test, every `[0]` is applied to a `split`
result, which is never empty, and the `int(...)` of the regex loop is
guarded by `isdigit()`), leaving absent parts to the assembler defaults. -/
theorem C8_total (accumulated : PyStr) :
    fallbackParseE accumulated =
      .ok (fallbackSteps accumulated, fallbackIngredients accumulated,
        fallbackTitle accumulated) := by
  simp only [fallbackParseE, bind, Except.bind, fallbackStepsE_ok, fallbackIngredientsE_ok,
    fallbackTitleE_ok]
  rfl

theorem modifyLast_append_one (f : RecipeStep → RecipeStep) (l : List RecipeStep)
    (a : RecipeStep) : modifyLast f (l ++ [a]) = l ++ [f a] := by
  induction l with
  | nil => rfl
  | cons x rest ih =>
    cases rest with
    | nil => rfl
    | cons y t =>
      show x :: modifyLast f ((y :: t) ++ [a]) = x :: ((y :: t) ++ [f a])
      rw [ih]

theorem ImgInv_congr {st st' : GenState} {c : Nat} (h : ImgInv st c)
    (hs : st'.steps = st.steps) (hp : st'.pending_images = st.pending_images)
    (hh : st'.haveCurrent = st.haveCurrent) : ImgInv st' c := by
  unfold ImgInv at *
  rw [hs, hp, hh]
  exact h

theorem stageAccum_sp (st : GenState) (t : PyStr) :
    (stageAccum st t).steps = st.steps ∧ (stageAccum st t).pending_images = st.pending_images ∧
    (stageAccum st t).haveCurrent = st.haveCurrent := ⟨rfl, rfl, rfl⟩

theorem stageTitle_sp (st : GenState) (t : PyStr) :
    (stageTitle st t).steps = st.steps ∧ (stageTitle st t).pending_images = st.pending_images ∧
    (stageTitle st t).haveCurrent = st.haveCurrent := by
  unfold stageTitle
  dsimp only
  repeat' split
  all_goals exact ⟨rfl, rfl, rfl⟩

theorem stageDescr_sp (st : GenState) (t : PyStr) :
    (stageDescr st t).steps = st.steps ∧ (stageDescr st t).pending_images = st.pending_images ∧
    (stageDescr st t).haveCurrent = st.haveCurrent := by
  unfold stageDescr
  dsimp only
  repeat' split
  all_goals exact ⟨rfl, rfl, rfl⟩

theorem stagePrep_sp (st : GenState) (t : PyStr) :
    (stagePrep st t).steps = st.steps ∧ (stagePrep st t).pending_images = st.pending_images ∧
    (stagePrep st t).haveCurrent = st.haveCurrent := by
  unfold stagePrep
  dsimp only
  repeat' split
  all_goals exact ⟨rfl, rfl, rfl⟩

theorem stageCook_sp (st : GenState) (t : PyStr) :
    (stageCook st t).steps = st.steps ∧ (stageCook st t).pending_images = st.pending_images ∧
    (stageCook st t).haveCurrent = st.haveCurrent := by
  unfold stageCook
  dsimp only
  repeat' split
  all_goals exact ⟨rfl, rfl, rfl⟩

theorem stageServings_sp (st : GenState) (t : PyStr) :
    (stageServings st t).steps = st.steps ∧
    (stageServings st t).pending_images = st.pending_images ∧
    (stageServings st t).haveCurrent = st.haveCurrent := by
  unfold stageServings
  dsimp only
  repeat' split
  all_goals exact ⟨rfl, rfl, rfl⟩

theorem ImgInv_append_step {st : GenState} {c : Nat} (h : ImgInv st c) (desc : PyStr) (n : Int) :
    ImgInv { st with steps := st.steps ++ [{ description := desc }],
                     haveCurrent := true, current_step_num := n } c := by
  obtain ⟨h1, h2, h3, h4⟩ := h
  refine ⟨?_, h2, ?_, ?_⟩
  · simp only [List.countP_append, List.countP_cons, List.countP_nil]
    simpa [bearing, truthyOpt] using h1
  · intro s hs
    rcases List.mem_append.mp hs with hs | hs
    · exact h3 s hs
    · rcases List.mem_singleton.mp hs with rfl
      left
      rfl
  · intro _
    simp

theorem ImgInv_append_attach {st : GenState} {c : Nat} (h : ImgInv st c) (desc : PyStr)
    (n : Int) (d m : PyStr) (ptl : List (PyStr × PyStr))
    (hpend : st.pending_images = (d, m) :: ptl) :
    ImgInv { st with steps := modifyLast (setImage d m) (st.steps ++ [{ description := desc }]),
                     haveCurrent := true, current_step_num := n, pending_images := ptl } c := by
  obtain ⟨h1, h2, h3, h4⟩ := h
  have hd : d ≠ [] := h2 (d, m) (by rw [hpend]; exact List.mem_cons_self _ _)
  rw [modifyLast_append_one]
  refine ⟨?_, ?_, ?_, ?_⟩
  · simp only [List.countP_append, List.countP_cons, List.countP_nil]
    have hb : bearing (setImage d m { description := desc }) = true := by
      simp [bearing, setImage, truthyOpt, List.isEmpty_iff, hd]
    rw [hpend] at h1
    simp only [List.length_cons] at h1
    simp [hb]
    omega
  · intro p hp
    exact h2 p (by rw [hpend]; exact List.mem_cons_of_mem _ hp)
  · intro s hs
    rcases List.mem_append.mp hs with hs | hs
    · exact h3 s hs
    · rcases List.mem_singleton.mp hs with rfl
      right
      exact ⟨d, rfl, hd⟩
  · intro _
    simp

theorem ImgInv_stepBranch {st : GenState} {c : Nat} (h : ImgInv st c) (desc : PyStr)
    (n : Int) :
    ImgInv (if !st.pending_images.isEmpty &&
          (st.steps ++ [({ description := desc } : RecipeStep)]).length == 1 then
        match st.pending_images with
        | [] =>
          { st with steps := st.steps ++ [({ description := desc } : RecipeStep)],
                    haveCurrent := true, current_step_num := n }
        | (d, m) :: ptl =>
          { st with steps := modifyLast (setImage d m)
                      (st.steps ++ [({ description := desc } : RecipeStep)]),
                    haveCurrent := true, current_step_num := n, pending_images := ptl }
      else
        { st with steps := st.steps ++ [({ description := desc } : RecipeStep)],
                  haveCurrent := true, current_step_num := n }) c := by
  split
  · split
    · exact ImgInv_append_step h _ _
    · rename_i hpend
      exact ImgInv_append_attach h _ _ _ _ _ hpend
  · exact ImgInv_append_step h _ _

theorem stepLoop_ImgInv (total : Nat) (l : List PyStr) :
    ∀ (i : Nat) (st : GenState) (c : Nat), ImgInv st c → ImgInv (stepLoop total i l st) c := by
  induction l with
  | nil => intro i st c h; exact h
  | cons x rest ih =>
    intro i st c h
    simp only [stepLoop]
    apply ih
    split
    · exact ImgInv_stepBranch h _ _
    · exact h

theorem stageSteps_ImgInv (st : GenState) (t : PyStr) (c : Nat) (h : ImgInv st c) :
    ImgInv (stageSteps st t) c := by
  unfold stageSteps
  split
  · exact stepLoop_ImgInv _ _ _ _ _ h
  · exact h

theorem processText_ImgInv (st : GenState) (t : PyStr) (c : Nat) (h : ImgInv st c) :
    ImgInv (processText st t) c := by
  unfold processText
  apply stageSteps_ImgInv
  have h1 := ImgInv_congr h (stageAccum_sp st t).1 (stageAccum_sp st t).2.1
    (stageAccum_sp st t).2.2
  have h2 := ImgInv_congr h1 (stageTitle_sp _ t).1 (stageTitle_sp _ t).2.1 (stageTitle_sp _ t).2.2
  have h3 := ImgInv_congr h2 (stageDescr_sp _ t).1 (stageDescr_sp _ t).2.1 (stageDescr_sp _ t).2.2
  have h4 := ImgInv_congr h3 (stagePrep_sp _ t).1 (stagePrep_sp _ t).2.1 (stagePrep_sp _ t).2.2
  have h5 := ImgInv_congr h4 (stageCook_sp _ t).1 (stageCook_sp _ t).2.1 (stageCook_sp _ t).2.2
  exact ImgInv_congr h5 (stageServings_sp _ t).1 (stageServings_sp _ t).2.1
    (stageServings_sp _ t).2.2

theorem processImage_ImgInv (st : GenState) (d m : PyStr) (c : Nat) (hd : d ≠ [])
    (h : ImgInv st c) : ImgInv (processImage st d m) (c + 1) := by
  obtain ⟨h1, h2, h3, h4⟩ := h
  unfold processImage
  split
  · rename_i hcur
    split
    · rename_i hnb
      have hne : st.steps ≠ [] := h4 hcur
      have hlastD : st.steps.getLastD { description := [] } = st.steps.getLast hne := by
        rw [List.getLastD_eq_getLast?, List.getLast?_eq_getLast st.steps hne]
        rfl
      have hb : bearing (st.steps.getLast hne) = false := by
        rw [hlastD] at hnb
        simpa [bearing] using hnb
      have hdec : st.steps.dropLast ++ [st.steps.getLast hne] = st.steps :=
        List.dropLast_append_getLast hne
      refine ⟨?_, h2, ?_, ?_⟩
      · show (modifyLast (setImage d m) st.steps).countP bearing + st.pending_images.length
          = c + 1
        rw [← hdec, modifyLast_append_one]
        rw [← hdec] at h1
        simp only [List.countP_append, List.countP_cons, List.countP_nil] at h1 ⊢
        have hbset : bearing (setImage d m (st.steps.getLast hne)) = true := by
          simp [bearing, setImage, truthyOpt, List.isEmpty_iff, hd]
        rw [hb] at h1
        rw [hbset]
        simp only [if_true, if_false, Bool.false_eq_true, ite_false, ite_true] at h1 ⊢
        omega
      · intro s hs
        show s.image_data = none ∨ ∃ dd, s.image_data = some dd ∧ dd ≠ []
        rw [← hdec, modifyLast_append_one] at hs
        rcases List.mem_append.mp hs with hs | hs
        · exact h3 s (List.mem_of_mem_dropLast hs)
        · rcases List.mem_singleton.mp hs with rfl
          right
          exact ⟨d, rfl, hd⟩
      · intro hc
        show modifyLast (setImage d m) st.steps ≠ []
        rw [← hdec, modifyLast_append_one]
        simp
    · refine ⟨?_, ?_, h3, h4⟩
      · simp only [List.length_append, List.length_cons, List.length_nil]
        omega
      · intro p hp
        rcases List.mem_append.mp hp with hp | hp
        · exact h2 p hp
        · rcases List.mem_singleton.mp hp with rfl
          exact hd
  · refine ⟨?_, ?_, h3, h4⟩
    · simp only [List.length_append, List.length_cons, List.length_nil]
      omega
    · intro p hp
      rcases List.mem_append.mp hp with hp | hp
      · exact h2 p hp
      · rcases List.mem_singleton.mp hp with rfl
        exact hd

theorem foldl_ImgInv (frags : List Fragment) :
    ∀ (st : GenState) (c : Nat), ImgInv st c →
      (∀ d m, Fragment.imageChunk d m ∈ frags → d ≠ []) →
      ImgInv (frags.foldl processFragment st) (c + imgCount frags) := by
  induction frags with
  | nil =>
    intro st c h _
    simpa [imgCount] using h
  | cons f rest ih =>
    intro st c h hne
    rw [List.foldl_cons]
    cases f with
    | textDelta t =>
      have hstep : ImgInv (processFragment st (Fragment.textDelta t)) c := by
        show ImgInv (if t.isEmpty then st else processText st t) c
        split
        · exact h
        · exact processText_ImgInv st t c h
      have := ih _ c hstep (fun d m hm => hne d m (List.mem_cons_of_mem _ hm))
      simpa [imgCount, List.countP_cons] using this
    | imageChunk d m =>
      have hd : d ≠ [] := hne d m (List.mem_cons_self _ _)
      have hstep : ImgInv (processFragment st (Fragment.imageChunk d m)) (c + 1) :=
        processImage_ImgInv st d m c hd h
      have := ih _ (c + 1) hstep (fun d' m' hm => hne d' m' (List.mem_cons_of_mem _ hm))
      have harr : c + 1 + imgCount rest = c + imgCount (Fragment.imageChunk d m :: rest) := by
        simp [imgCount, List.countP_cons]
        omega
      rw [← harr]
      exact this

theorem drainImages_fst_length (steps : List RecipeStep) :
    ∀ pending : List (PyStr × PyStr), (drainImages steps pending).1.length = steps.length := by
  induction steps with
  | nil => intro pending; rfl
  | cons s rest ih =>
    intro pending
    cases pending with
    | nil => rfl
    | cons p ptl =>
      obtain ⟨d, m⟩ := p
      simp only [drainImages]
      split
      · rcases hdr : drainImages rest ptl with ⟨r', p'⟩
        have := ih ptl
        rw [hdr] at this
        simp [hdr, this]
      · rcases hdr : drainImages rest ((d, m) :: ptl) with ⟨r', p'⟩
        have := ih ((d, m) :: ptl)
        rw [hdr] at this
        simp [hdr, this]

theorem drainImages_countP (steps : List RecipeStep) :
    ∀ pending : List (PyStr × PyStr), (∀ p ∈ pending, p.1 ≠ ([] : PyStr)) →
      (drainImages steps pending).1.countP bearing =
        min (steps.countP bearing + pending.length) steps.length := by
  induction steps with
  | nil =>
    intro pending hp
    simp [drainImages]
  | cons s rest ih =>
    intro pending hp
    cases pending with
    | nil =>
      have hle := List.countP_le_length (p := bearing) (l := s :: rest)
      simp only [drainImages, List.length_nil, Nat.add_zero]
      omega
    | cons p ptl =>
      obtain ⟨d, m⟩ := p
      have hd : d ≠ [] := hp (d, m) (List.mem_cons_self _ _)
      have hptl : ∀ q ∈ ptl, q.1 ≠ ([] : PyStr) := fun q hq => hp q (List.mem_cons_of_mem _ hq)
      simp only [drainImages]
      split
      · rename_i hnb
        have hcount := ih ptl hptl
        rcases hdr : drainImages rest ptl with ⟨r', p'⟩
        rw [hdr] at hcount
        dsimp only at hcount ⊢
        have hbs : bearing s = false := by simpa [bearing] using hnb
        have hbset : bearing (setImage d m s) = true := by
          simp [bearing, setImage, truthyOpt, List.isEmpty_iff, hd]
        simp only [List.countP_cons, List.length_cons, hbs, hbset, if_true, if_false,
          Bool.false_eq_true, ite_false, ite_true]
        rw [Nat.min_def] at hcount
        rw [Nat.min_def]
        split at hcount <;> split <;> omega
      · rename_i hnb
        have hcount := ih ((d, m) :: ptl) hp
        rcases hdr : drainImages rest ((d, m) :: ptl) with ⟨r', p'⟩
        rw [hdr] at hcount
        dsimp only at hcount ⊢
        have hbs : bearing s = true := by
          simpa [bearing] using hnb
        simp only [List.countP_cons, List.length_cons, hbs, if_true, ite_true]
        simp only [List.length_cons] at hcount
        rw [Nat.min_def] at hcount
        rw [Nat.min_def]
        split at hcount <;> split <;> omega

theorem simpleLoop_image_none (l : List PyStr) : ∀ s ∈ simpleLoop l, s.image_data = none := by
  induction l with
  | nil => intro s hs; simp [simpleLoop] at hs
  | cons x rest ih =>
    intro s hs
    simp only [simpleLoop] at hs
    split at hs
    · rcases List.mem_cons.mp hs with rfl | hs
      · rfl
      · exact ih s hs
    · exact ih s hs

theorem fallbackSteps_image_none (t : PyStr) : ∀ s ∈ fallbackSteps t, s.image_data = none := by
  intro s hs
  unfold fallbackSteps at hs
  dsimp only at hs
  split at hs
  · exact simpleLoop_image_none _ s hs
  · obtain ⟨m, -, rfl⟩ := List.mem_map.mp hs
    rfl

theorem postFallbackSteps_ImgInv (st : GenState) (c : Nat) (h : ImgInv st c) :
    ImgInv (postFallbackSteps st) c := by
  obtain ⟨h1, h2, h3, h4⟩ := h
  unfold postFallbackSteps
  split
  · rename_i hcond
    have hempty : st.steps = [] := by
      rw [Bool.and_eq_true] at hcond
      exact List.isEmpty_iff.mp hcond.1
    refine ⟨?_, h2, ?_, ?_⟩
    · show (fallbackSteps st.accumulated_text).countP bearing + st.pending_images.length = c
      have hzero : (fallbackSteps st.accumulated_text).countP bearing = 0 :=
        List.countP_eq_zero.mpr fun s hs => by
          simp [bearing, fallbackSteps_image_none _ s hs, truthyOpt]
      rw [hzero]
      rw [hempty] at h1
      simpa using h1
    · intro s hs
      exact Or.inl (fallbackSteps_image_none _ s hs)
    · intro hc
      exact absurd hempty (h4 hc)
  · exact ⟨h1, h2, h3, h4⟩

theorem postDrain_count (st : GenState) (c : Nat) (h : ImgInv st c) :
    (postDrain st).steps.countP bearing = min c (postDrain st).steps.length := by
  obtain ⟨h1, h2, h3, h4⟩ := h
  unfold postDrain
  split
  · have hc := drainImages_countP st.steps st.pending_images h2
    have hl := drainImages_fst_length st.steps st.pending_images
    rcases hdr : drainImages st.steps st.pending_images with ⟨r', p'⟩
    rw [hdr] at hc hl
    dsimp only at hc hl ⊢
    rw [hc, hl, ← h1]
  · rename_i hcond
    have hor : st.pending_images = [] ∨ st.steps = [] := by
      rw [Bool.and_eq_true] at hcond
      by_cases hp : st.pending_images = []
      · exact Or.inl hp
      · right
        rcases Decidable.not_and_iff_or_not.mp hcond with hh | hh
        · exact absurd (by simp [List.isEmpty_iff, hp]) hh
        · by_contra hs
          exact hh (by simp [List.isEmpty_iff, hs])
    rcases hor with hp | hs
    · rw [hp] at h1
      simp only [List.length_nil, Nat.add_zero] at h1
      have hle := List.countP_le_length (p := bearing) (l := st.steps)
      rw [h1] at hle ⊢
      omega
    · rw [hs] at h1 ⊢
      simp only [List.countP_nil, List.length_nil, Nat.zero_add] at h1 ⊢
      omega

theorem postIngredients_steps (st : GenState) : (postIngredients st).steps = st.steps := by
  unfold postIngredients
  repeat' split
  all_goals rfl

theorem postTitle_steps (st : GenState) : (postTitle st).steps = st.steps := by
  unfold postTitle
  dsimp only
  repeat' split
  all_goals rfl

theorem postStream_count (st : GenState) (c : Nat) (h : ImgInv st c) :
    (postStream st).steps.countP bearing = min c (postStream st).steps.length := by
  unfold postStream
  rw [postTitle_steps, postIngredients_steps]
  exact postDrain_count _ c (postFallbackSteps_ImgInv st c h)

/-- C4, amended: an arriving image is assigned immediately to the current
(most recently created) step if that step lacks an image, otherwise
enqueued FIFO, and on normal stream end pending images are popped
oldest-first into image-less steps in step order; consequently, for a
stream of fragments with non-empty image payloads, exactly
`min(N, M)` of the `N` steps end up bearing an image, where `M` is the
number of image fragments — but *not* necessarily the first `min(N, M)`
steps in step order, since an image arriving after a later step was
created attaches to that later step even when an earlier step is
image-less (see the counterexample). -/
theorem C4_amended (frags : List Fragment)
    (h : ∀ d m, Fragment.imageChunk d m ∈ frags → d ≠ []) :
    (generate_recipe frags false).steps.countP bearing =
      min (imgCount frags) (generate_recipe frags false).steps.length := by
  have h0 : ImgInv initState 0 := by
    refine ⟨rfl, ?_, ?_, ?_⟩ <;> simp [initState]
  have h1 := foldl_ImgInv frags initState 0 h0 h
  rw [Nat.zero_add] at h1
  show (postStream (frags.foldl processFragment initState)).steps.countP bearing =
    min (imgCount frags) (postStream (frags.foldl processFragment initState)).steps.length
  exact postStream_count _ _ h1

/-- Witness for C4 at a concrete stream: one step, one image, and indeed
`min(1, 1) = 1` step bears an image. -/
theorem C4_witness :
    (generate_recipe [Fragment.textDelta (pystr "**Step 1:** A\n"),
        Fragment.imageChunk (pystr "X") (pystr "image/png")] false).steps.countP bearing =
      min (imgCount [Fragment.textDelta (pystr "**Step 1:** A\n"),
          Fragment.imageChunk (pystr "X") (pystr "image/png")])
        (generate_recipe [Fragment.textDelta (pystr "**Step 1:** A\n"),
            Fragment.imageChunk (pystr "X") (pystr "image/png")] false).steps.length := by
  apply C4_amended
  intro d m hm
  simp only [List.mem_cons, List.not_mem_nil, or_false] at hm
  rcases hm with hm | hm
  · exact absurd hm (by simp)
  · injection hm with h1 h2
    subst h1
    decide
